import Mathlib

/-!
Shallow embedding of the `largemelon` single-header bridge between a
Ragel-generated scanner and a Lemon-generated parser
(`src/largemelon.hpp`), together with proofs about its position model,
token-dispatch bridge, escaping helpers and AST node framework.

Strings are modelled as `List Char`; the `size_t` line/column counters are
modelled as `Nat` (no claim under scrutiny involves wrap-around, and all
subtractions performed by the code are guarded so that `Nat` truncation
coincides with the C++ value).  Pointer pairs `ts`/`te` delimiting a raw
lexeme are modelled as a `List Char` holding the characters of `[ts, te)`,
with offsets standing for pointers; nullness of the C++ pointer arguments
is modelled by explicit `Bool` flags on the assertion-checked variants.
-/

namespace Largemelon

/-- `escchr` from `src/largemelon.hpp` (lines 29-39): the escaped
representation of a single character. -/
def escchr (c : Char) : List Char :=
  match c with
  | '\n' => ['\\', 'n']
  | '\r' => ['\\', 'r']
  | '\x0c' => ['\\', 'f']
  | '\x0b' => ['\\', 'v']
  | '\t' => ['\\', 't']
  | '\\' => ['\\', '\\']
  | c => [c]

/-- `escstr` from `src/largemelon.hpp` (lines 46-52): escape every
character of a string, concatenating the per-character escapes. -/
def escstr : List Char → List Char
  | [] => []
  | c :: cs => escchr c ++ escstr cs

/-- The six characters that `escchr` maps to two-character escapes. -/
def ESCAPED_CHARS : List Char := ['\n', '\r', '\x0c', '\x0b', '\t', '\\']

/-- `text_loc` from `src/largemelon.hpp` (lines 57-66): the location of a
span of text in source code. -/
structure text_loc where
  first_lno : Nat
  first_cno : Nat
  last_lno : Nat
  last_cno : Nat
  deriving DecidableEq

/-- `FIRST_TEXT_LOC` (line 120): the span at the start of any input. -/
def FIRST_TEXT_LOC : text_loc := ⟨1, 0, 1, 0⟩

/-- `EMPTY_TEXT_LOC` (line 123): the all-zero "uninitialized" span. -/
def EMPTY_TEXT_LOC : text_loc := ⟨0, 0, 0, 0⟩

/-- `operator<` on `text_loc` (lines 96-101): `lhs` comes entirely before
`rhs`. -/
def tloc_lt (lhs rhs : text_loc) : Prop :=
  lhs.last_lno < rhs.first_lno
    ∨ (lhs.last_lno = rhs.first_lno ∧ lhs.last_cno ≤ rhs.first_cno)

instance (lhs rhs : text_loc) : Decidable (tloc_lt lhs rhs) := by
  unfold tloc_lt; infer_instance

/-- The (line, column) pair at which a span starts. -/
def loc_start (x : text_loc) : Nat × Nat := (x.first_lno, x.first_cno)

/-- The (line, column) pair at which a span ends. -/
def loc_end (x : text_loc) : Nat × Nat := (x.last_lno, x.last_cno)

/-- Lexicographic `≤` on (line, column) pairs: `a` precedes or equals
`b`. -/
def pt_le (a b : Nat × Nat) : Prop :=
  a.1 < b.1 ∨ (a.1 = b.1 ∧ a.2 ≤ b.2)

/-- Lexicographic `<` on (line, column) pairs: `a` strictly precedes
`b`. -/
def pt_lt (a b : Nat × Nat) : Prop :=
  a.1 < b.1 ∨ (a.1 = b.1 ∧ a.2 < b.2)

instance (a b : Nat × Nat) : Decidable (pt_le a b) := by
  unfold pt_le; infer_instance

instance (a b : Nat × Nat) : Decidable (pt_lt a b) := by
  unfold pt_lt; infer_instance

/-- A well-formed span: its start does not come after its end.  The header
assumes but does not enforce this ("first components ≤ corresponding last
components is assumed, not enforced"). -/
def wf_loc (x : text_loc) : Prop := pt_le (loc_start x) (loc_end x)

instance (x : text_loc) : Decidable (wf_loc x) := by
  unfold wf_loc; infer_instance

/-- Span `b` lies entirely within span `a`: `a` starts no later than `b`
and ends no earlier than `b`. -/
def loc_inside (b a : text_loc) : Prop :=
  pt_le (loc_start a) (loc_start b) ∧ pt_le (loc_end b) (loc_end a)

instance (b a : text_loc) : Decidable (loc_inside b a) := by
  unfold loc_inside; infer_instance

/-- The loop of `mtext_loc` (lines 166-173): iterate the regex
`\r\n|\r|\n` over the text with `std::sregex_iterator`, which yields
successive leftmost matches, preferring the alternative `\r\n` at each
match position.  `pos` is the offset of the scan front, `n` accumulates
`num_newlines` and `t` accumulates `tpos` (offset one past the end of the
most recent match). -/
def nl_scan : List Char → Nat → Nat → Nat → Nat × Nat
  | [], _, n, t => (n, t)
  | '\r' :: '\n' :: rest, pos, n, _ => nl_scan rest (pos + 2) (n + 1) (pos + 2)
  | '\r' :: rest, pos, n, _ => nl_scan rest (pos + 1) (n + 1) (pos + 1)
  | '\n' :: rest, pos, n, _ => nl_scan rest (pos + 1) (n + 1) (pos + 1)
  | _ :: rest, pos, n, t => nl_scan rest (pos + 1) n t

/-- The number of line-terminator sequences (CRLF, CR or LF, with CRLF
recognized as a single sequence) contained in a text. -/
def nl_count : List Char → Nat
  | [] => 0
  | '\r' :: '\n' :: rest => nl_count rest + 1
  | '\r' :: rest => nl_count rest + 1
  | '\n' :: rest => nl_count rest + 1
  | _ :: rest => nl_count rest

/-- The offset one past the end of the last line-terminator sequence of a
text (meaningful when `nl_count` is positive). -/
def last_nl_end : List Char → Nat
  | [] => 0
  | '\r' :: '\n' :: rest =>
      if 0 < nl_count rest then 2 + last_nl_end rest else 2
  | '\r' :: rest =>
      if 0 < nl_count rest then 1 + last_nl_end rest else 1
  | '\n' :: rest =>
      if 0 < nl_count rest then 1 + last_nl_end rest else 1
  | _ :: rest => 1 + last_nl_end rest

/-- `mtext_loc` from `src/largemelon.hpp` (lines 146-195): the location of
the matched text `mtext` given the location `prev_loc` of the text before
it. -/
def mtext_loc (prev_loc : text_loc) (mtext : List Char) : text_loc :=
  let first_lno := prev_loc.last_lno
  let first_cno := prev_loc.last_cno + 1
  let nt := nl_scan mtext 0 0 0
  if 0 < nt.1 then
    { first_lno := first_lno, first_cno := first_cno,
      last_lno := first_lno + nt.1, last_cno := mtext.length - nt.2 }
  else
    { first_lno := first_lno, first_cno := first_cno,
      last_lno := first_lno, last_cno := prev_loc.last_cno + mtext.length }

/-- `span_loc` from `src/largemelon.hpp` (lines 205-209): the span built
from the first argument's start and the second argument's end. -/
def span_loc (first_loc last_loc : text_loc) : text_loc :=
  { first_lno := first_loc.first_lno, first_cno := first_loc.first_cno,
    last_lno := last_loc.last_lno, last_cno := last_loc.last_cno }

/-- `lex_token` from `src/largemelon.hpp` (lines 225-242): matched text,
source-file identity and location span (the `fpath` field is modelled, as
the text is, by its character list). -/
structure lex_token where
  mtext : List Char
  fpath : List Char
  loc : text_loc
  deriving DecidableEq

/-- One invocation of the Lemon `Parse()`-like step function, as performed
by the bridge: the token-kind id and the token payload (`none` models a
null payload pointer). -/
structure parse_call where
  token_id : Nat
  tok : Option lex_token
  deriving DecidableEq

/-- The running scanner-loop state mutated by every bridge call: the
`mtext` and `loc` reference parameters shared by
`parse_token_trimmed`, `parse_null_token` and `skip_token`. -/
structure bridge_state where
  mtext : List Char
  loc : text_loc
  deriving DecidableEq

/-- The bridge state at the start of a parse: empty matched text and the
start-of-input span. -/
def init_bridge : bridge_state := { mtext := [], loc := FIRST_TEXT_LOC }

/-- `toktext(ts, te)` from `src/largemelon.hpp` (lines 264-269), with the
two pointers modelled as offsets `a` and `b` into the raw span `raw`:
`std::string(ts, te - ts)`, the characters of `[a, b)`. -/
def toktext (raw : List Char) (a b : Nat) : List Char :=
  (raw.drop a).take (b - a)

/-- `set_mtext_and_loc_trimmed` from `src/largemelon.hpp` (lines 352-361),
assertions aside: sets `mtext` to `toktext(ts + ltrim, te - rtrim)` and
advances `loc` by `toktext(ts, te)`, the full raw span. -/
def set_mtext_and_loc_trimmed (st : bridge_state) (raw : List Char)
    (ltrim rtrim : Nat) : bridge_state :=
  { mtext := toktext raw ltrim (raw.length - rtrim),
    loc := mtext_loc st.loc (toktext raw 0 raw.length) }

/-- `parse_token_trimmed` from `src/largemelon.hpp` (lines 436-454),
assertions aside: updates the running state via
`set_mtext_and_loc_trimmed` and invokes the parse function once with the
token-kind id and a newly allocated `lex_token` built from the updated
matched text, the file identity and the updated location.  The returned
list records the parse-function invocations performed by the call. -/
def parse_token_trimmed (st : bridge_state) (fpath raw : List Char)
    (token_id ltrim rtrim : Nat) : bridge_state × List parse_call :=
  let st1 := set_mtext_and_loc_trimmed st raw ltrim rtrim
  (st1, [{ token_id := token_id, tok := some ⟨st1.mtext, fpath, st1.loc⟩ }])

/-- `skip_token` from `src/largemelon.hpp` (lines 389-401), assertions
aside: updates the running state via `set_mtext_and_loc_trimmed` called
with trim counts `0, 0` (the `ltrim` and `rtrim` arguments are explicitly
unused) and performs no parse-function invocation. -/
def skip_token (st : bridge_state) (fpath raw : List Char)
    (ltrim rtrim : Nat) : bridge_state × List parse_call :=
  (set_mtext_and_loc_trimmed st raw 0 0, [])

/-- `parse_null_token` from `src/largemelon.hpp` (lines 489-506),
assertions aside: updates the running state via
`set_mtext_and_loc_trimmed` with trim counts `0, 0` and invokes the parse
function once with a null token payload. -/
def parse_null_token (st : bridge_state) (fpath raw : List Char)
    (token_id : Nat) : bridge_state × List parse_call :=
  (set_mtext_and_loc_trimmed st raw 0 0, [{ token_id := token_id, tok := none }])

/-- The length assertion of `set_mtext_and_loc_trimmed` (line 358):
`(te - rtrim) - (ts + ltrim) > 0`, evaluated in signed pointer arithmetic
(hence over `Int`), with `ts = 0` and `te = raw.length`. -/
def trimmed_len_pos (raw : List Char) (ltrim rtrim : Nat) : Prop :=
  ((raw.length : Int) - (rtrim : Int)) - (0 + (ltrim : Int)) > 0

instance (raw : List Char) (ltrim rtrim : Nat) :
    Decidable (trimmed_len_pos raw ltrim rtrim) := by
  unfold trimmed_len_pos; infer_instance

/-- `set_mtext_and_loc_trimmed` with its length assertion modelled:
`none` is an assertion failure (the null-pointer assertions of lines
356-357 are checked by every caller before this point and are modelled on
the callers). -/
def set_mtext_and_loc_checked (st : bridge_state) (raw : List Char)
    (ltrim rtrim : Nat) : Option bridge_state :=
  if trimmed_len_pos raw ltrim rtrim then
    some (set_mtext_and_loc_trimmed st raw ltrim rtrim)
  else
    none

/-- `parse_token_trimmed` with its assertions modelled.  `ts_null`,
`te_null` and `pparser_null` state whether the corresponding pointer
arguments are null; the function first asserts all three non-null
(lines 443-445) and then runs the checked state update. -/
def parse_token_trimmed_checked (ts_null te_null pparser_null : Bool)
    (st : bridge_state) (fpath raw : List Char) (token_id ltrim rtrim : Nat) :
    Option (bridge_state × List parse_call) :=
  if ts_null || te_null || pparser_null then none
  else
    (set_mtext_and_loc_checked st raw ltrim rtrim).map fun st1 =>
      (st1, [{ token_id := token_id, tok := some ⟨st1.mtext, fpath, st1.loc⟩ }])

/-- `skip_token` with its assertions modelled: asserts `ts` and `te`
non-null (lines 394-395), then runs the checked state update with trim
counts `0, 0`. -/
def skip_token_checked (ts_null te_null : Bool) (st : bridge_state)
    (fpath raw : List Char) (ltrim rtrim : Nat) :
    Option (bridge_state × List parse_call) :=
  if ts_null || te_null then none
  else
    (set_mtext_and_loc_checked st raw 0 0).map fun st1 => (st1, [])

/-- `parse_null_token` with its assertions modelled: asserts `ts`, `te`
and `pparser` non-null (lines 496-498), then runs the checked state update
with trim counts `0, 0`. -/
def parse_null_token_checked (ts_null te_null pparser_null : Bool)
    (st : bridge_state) (fpath raw : List Char) (token_id : Nat) :
    Option (bridge_state × List parse_call) :=
  if ts_null || te_null || pparser_null then none
  else
    (set_mtext_and_loc_checked st raw 0 0).map fun st1 =>
      (st1, [{ token_id := token_id, tok := none }])

/-- The observable state of a collection of `ast_base_type` objects
(`src/largemelon.hpp`, lines 517-601).  Live nodes are identified by
natural numbers (distinct heap objects get distinct ids); `nodes` lists
the constructed nodes, `parent i` is the node pointed to by `parent_` of
node `i`, and `childs i` lists the members of the `std::set` `childs_` of
node `i` (a `List` kept duplicate-free by the guarded insert below). -/
structure ast_state where
  nodes : List Nat
  parent : Nat → Nat
  childs : Nat → List Nat

/-- The state before any node has been constructed.  Ids not in `nodes`
carry the defaults a fresh object will overwrite. -/
def init_ast : ast_state :=
  { nodes := [], parent := fun i => i, childs := fun _ => [] }

/-- `ast_base_type::is_root` (line 581): a node is the root of its AST
exactly when it is its own parent. -/
def ast_is_root (s : ast_state) (i : Nat) : Prop := s.parent i = i

instance (s : ast_state) (i : Nat) : Decidable (ast_is_root s i) := by
  unfold ast_is_root; infer_instance

/-- The `ast_base_type` constructor (lines 534-537): the fresh node `i`
becomes its own parent with an empty child set (its `childs` entry is
already empty in any reachable state, since `i` was never inserted
anywhere). -/
def ast_new_node (s : ast_state) (i : Nat) : ast_state :=
  { nodes := i :: s.nodes,
    parent := fun j => if j = i then i else s.parent j,
    childs := s.childs }

/-- `ast_base_type::add_child` (lines 543-546): sets `child->parent_` to
the adder and inserts the child into the adder's `childs_` set
(`std::set::insert` is a no-op on an element already present). -/
def ast_add_child (s : ast_state) (p c : Nat) : ast_state :=
  { nodes := s.nodes,
    parent := fun j => if j = c then p else s.parent j,
    childs := fun j =>
      if j = p then (if c ∈ s.childs p then s.childs p else c :: s.childs p)
      else s.childs j }

/-- The two mutating operations of the AST node framework: constructing a
node and adding a child. -/
inductive ast_op where
  | newNode (i : Nat)
  | addChild (p c : Nat)

/-- Apply one operation to the state. -/
def ast_step (s : ast_state) : ast_op → ast_state
  | .newNode i => ast_new_node s i
  | .addChild p c => ast_add_child s p c

/-- Run a sequence of operations. -/
def ast_exec : ast_state → List ast_op → ast_state
  | s, [] => s
  | s, op :: ops => ast_exec (ast_step s op) ops

/-- Admissibility of one operation as the claim states it: a constructed
node is fresh, and `add_child` links two distinct constructed nodes. -/
def ast_op_ok (s : ast_state) : ast_op → Bool
  | .newNode i => ! s.nodes.contains i
  | .addChild p c => s.nodes.contains p && s.nodes.contains c && (c != p)

/-- Admissibility of a sequence of operations as the claim states it. -/
def ast_ops_ok : ast_state → List ast_op → Bool
  | _, [] => true
  | s, op :: ops => ast_op_ok s op && ast_ops_ok (ast_step s op) ops

/-- Admissibility with the attach-once discipline the header's intended
usage prescribes (each node is attached to a parent at most once, i.e. the
attached child is still a root): `ast_op_ok` plus `parent c = c` for
`addChild p c`. -/
def ast_op_ok_once (s : ast_state) : ast_op → Bool
  | .newNode i => ! s.nodes.contains i
  | .addChild p c =>
      s.nodes.contains p && s.nodes.contains c && (c != p)
        && (s.parent c == c)

/-- Admissibility of a sequence under the attach-once discipline. -/
def ast_ops_ok_once : ast_state → List ast_op → Bool
  | _, [] => true
  | s, op :: ops => ast_op_ok_once s op && ast_ops_ok_once (ast_step s op) ops

/-- The structural invariant of reachable AST states: untouched ids have
default entries, parents of live nodes are live, child-set members are
live non-roots, child sets are duplicate-free, and the parent/child
relation is bidirectionally consistent on non-roots. -/
def ast_inv (s : ast_state) : Prop :=
  (∀ i, i ∉ s.nodes → s.parent i = i ∧ s.childs i = [])
    ∧ (∀ i, i ∈ s.nodes → s.parent i ∈ s.nodes)
    ∧ (∀ p c, c ∈ s.childs p → p ∈ s.nodes ∧ c ∈ s.nodes ∧ s.parent c ≠ c)
    ∧ (∀ p, (s.childs p).Nodup)
    ∧ (∀ p c, s.parent c ≠ c → (c ∈ s.childs p ↔ s.parent c = p))

/-- Modelled from the spec: the recursive ownership cascade of tree
destruction.  `src/largemelon.hpp` stores only non-owning raw child
pointers in `ast_base_type`; the owning links live in the destructors of
the derived node classes, which (as in the repository's test fixtures,
e.g. `ast_binop_logor` holding its sub-expressions in `std::unique_ptr`
members) own each child exclusively and destroy it when the owner is
destroyed, members being destroyed in reverse declaration order.  A forest
of exclusively-owned nodes is therefore a finite tree structure:
`ast_forest.cons i children rest` is a node `i` owning `children`,
followed by its later siblings `rest`. -/
inductive ast_forest where
  | nil
  | cons (i : Nat) (children rest : ast_forest)

/-- All node ids of a forest, owner first, siblings in declaration
order. -/
def forest_nodes : ast_forest → List Nat
  | .nil => []
  | .cons i c r => i :: (forest_nodes c ++ forest_nodes r)

/-- Modelled from the spec: the sequence of node destructions triggered by
destroying a forest of sibling members, later-declared members first (C++
destroys members in reverse declaration order); destroying a node runs its
destructor and then destroys the children it owns. -/
def forest_destroy : ast_forest → List Nat
  | .nil => []
  | .cons i c r => forest_destroy r ++ (i :: forest_destroy c)

/-- The accumulator-passing regex loop of `mtext_loc` computes the
terminator count and, when there is at least one terminator, the offset
one past the last terminator. -/
theorem nl_scan_eq (s : List Char) (pos n t : Nat) :
    nl_scan s pos n t
      = (n + nl_count s, if 0 < nl_count s then pos + last_nl_end s else t) := by
  induction s, pos, n, t using nl_scan.induct with
  | case1 pos n t => simp [nl_scan, nl_count]
  | case2 rest pos n t ih =>
      rw [nl_scan, nl_count, last_nl_end, ih]
      · rcases Nat.eq_zero_or_pos (nl_count rest) with h | h <;> simp [h] <;> omega
  | case3 rest pos n t hne ih =>
      rw [nl_scan, nl_count, last_nl_end, ih]
      · rcases Nat.eq_zero_or_pos (nl_count rest) with h | h <;> simp [h] <;> omega
      all_goals exact hne
  | case4 rest pos n t ih =>
      rw [nl_scan, nl_count, last_nl_end, ih]
      · rcases Nat.eq_zero_or_pos (nl_count rest) with h | h <;> simp [h] <;> omega
  | case5 c rest pos n t h1 h2 h3 ih =>
      rw [nl_scan, nl_count, last_nl_end, ih]
      · rcases Nat.eq_zero_or_pos (nl_count rest) with h | h <;> simp [h] <;> omega
      all_goals first | exact h1 | exact h2 | exact h3

/-- A character outside the six escaped ones is passed through
unchanged. -/
theorem escchr_eq_self (c : Char) (hc : c ∉ ESCAPED_CHARS) :
    escchr c = [c] := by
  unfold escchr
  split
  · exact absurd (by simp [ESCAPED_CHARS]) hc
  · exact absurd (by simp [ESCAPED_CHARS]) hc
  · exact absurd (by simp [ESCAPED_CHARS]) hc
  · exact absurd (by simp [ESCAPED_CHARS]) hc
  · exact absurd (by simp [ESCAPED_CHARS]) hc
  · exact absurd (by simp [ESCAPED_CHARS]) hc
  · rfl

/-- A string containing none of the six escaped characters is left
unchanged by `escstr`. -/
theorem escstr_eq_self (s : List Char) (hs : ∀ c ∈ s, c ∉ ESCAPED_CHARS) :
    escstr s = s := by
  induction s with
  | nil => rfl
  | cons c cs ih =>
      rw [escstr, escchr_eq_self c (hs c (by simp)),
        ih fun d hd => hs d (by simp [hd])]
      rfl

/-- C1: `mtext_loc(p, t)` returns a span starting immediately after `p`'s
end: first line `p.last_lno`, first column `p.last_cno + 1`.  If `t`
contains `k ≥ 1` line-terminator sequences (CR, LF or CRLF), the result's
last line is its first line plus `k` and its last column is `t`'s length
minus the offset of the end of the last terminator; if `t` contains no
terminator, the result's last line equals its first line and its last
column is `p.last_cno` plus `t`'s length. -/
theorem mtext_loc_newline_spec (p : text_loc) (t : List Char) :
    (mtext_loc p t).first_lno = p.last_lno ∧
    (mtext_loc p t).first_cno = p.last_cno + 1 ∧
    (1 ≤ nl_count t →
      (mtext_loc p t).last_lno = (mtext_loc p t).first_lno + nl_count t ∧
      (mtext_loc p t).last_cno = t.length - last_nl_end t) ∧
    (nl_count t = 0 →
      (mtext_loc p t).last_lno = (mtext_loc p t).first_lno ∧
      (mtext_loc p t).last_cno = p.last_cno + t.length) := by
  unfold mtext_loc
  rw [nl_scan_eq]
  rcases Nat.eq_zero_or_pos (nl_count t) with h | h <;> simp [h] <;> omega

/-- Witness for C1 at a concrete input: `"a\nb"` after the span
`(1,26,1,29)` has one terminator, ends one line lower, and ends at the
column given by the distance from the terminator's end. -/
theorem mtext_loc_newline_spec_witness :
    1 ≤ nl_count ['a', '\n', 'b'] ∧
    (mtext_loc ⟨1, 26, 1, 29⟩ ['a', '\n', 'b']).last_lno
      = (mtext_loc ⟨1, 26, 1, 29⟩ ['a', '\n', 'b']).first_lno
          + nl_count ['a', '\n', 'b'] ∧
    (mtext_loc ⟨1, 26, 1, 29⟩ ['a', '\n', 'b']).last_cno
      = (['a', '\n', 'b'] : List Char).length - last_nl_end ['a', '\n', 'b'] := by
  have h := (mtext_loc_newline_spec ⟨1, 26, 1, 29⟩ ['a', '\n', 'b']).2.2.1
    (by decide)
  exact ⟨by decide, h.1, h.2⟩

/-- C10: `mtext_loc` uses only `last_lno` and `last_cno` of the previous
span: two previous spans agreeing on those two fields yield the same
result for every matched text. -/
theorem mtext_loc_prev_end_only (p q : text_loc) (t : List Char)
    (hl : p.last_lno = q.last_lno) (hc : p.last_cno = q.last_cno) :
    mtext_loc p t = mtext_loc q t := by
  unfold mtext_loc
  rw [hl, hc]

/-- Witness for C10 at a concrete input: two spans differing in their
first components advance identically. -/
theorem mtext_loc_prev_end_only_witness :
    (⟨1, 2, 3, 4⟩ : text_loc).last_lno = (⟨9, 9, 3, 4⟩ : text_loc).last_lno ∧
    (⟨1, 2, 3, 4⟩ : text_loc).last_cno = (⟨9, 9, 3, 4⟩ : text_loc).last_cno ∧
    mtext_loc ⟨1, 2, 3, 4⟩ ['x', '\n'] = mtext_loc ⟨9, 9, 3, 4⟩ ['x', '\n'] :=
  ⟨rfl, rfl, mtext_loc_prev_end_only ⟨1, 2, 3, 4⟩ ⟨9, 9, 3, 4⟩ ['x', '\n'] rfl rfl⟩

/-- C3 counterexample: the well-formed single-point span `(1,0,1,0)` ends
exactly where it itself begins (the claim's "A ends on the line where B
begins with A's end column ≤ B's start column" condition, with `A = B`),
so the claim asserts `A < B` and `¬ (B < A)`; but `B < A` holds as well,
so the asserted conjunction fails — and the pair is also overlapping,
refuting "neither holds" for overlapping pairs. -/
theorem tloc_lt_claim_counterexample :
    wf_loc FIRST_TEXT_LOC
    ∧ (FIRST_TEXT_LOC.last_lno = FIRST_TEXT_LOC.first_lno
        ∧ FIRST_TEXT_LOC.last_cno ≤ FIRST_TEXT_LOC.first_cno)
    ∧ ¬ (tloc_lt FIRST_TEXT_LOC FIRST_TEXT_LOC
          ∧ ¬ tloc_lt FIRST_TEXT_LOC FIRST_TEXT_LOC) := by
  decide

/-- C3 (amended): `A < B` holds exactly when `A`'s end precedes or abuts
`B`'s start (strictly by line, or on the same line with column `≤`); for
well-formed spans, when `A`'s end strictly precedes `B`'s start, `A < B`
and not `B < A` (asymmetry can fail only for degenerate abutting pairs
such as two identical point spans); and neither `A < B` nor `B < A` holds
exactly when each span starts strictly before the other ends, i.e. for the
overlapping or entwined pairs. -/
theorem tloc_lt_amended (A B : text_loc) :
    (tloc_lt A B ↔ pt_le (loc_end A) (loc_start B)) ∧
    (wf_loc A → wf_loc B → pt_lt (loc_end A) (loc_start B) →
      tloc_lt A B ∧ ¬ tloc_lt B A) ∧
    ((¬ tloc_lt A B ∧ ¬ tloc_lt B A) ↔
      (pt_lt (loc_start B) (loc_end A) ∧ pt_lt (loc_start A) (loc_end B))) := by
  unfold tloc_lt wf_loc pt_le pt_lt loc_start loc_end
  refine ⟨Iff.rfl, ?_, ?_⟩ <;> simp only [] <;> omega

/-- Witness for C3 (amended) at the concrete spans of the repository's
own ordering test: `(1,1,1,8)` wholly precedes `(2,5,2,18)`. -/
theorem tloc_lt_amended_witness :
    wf_loc ⟨1, 1, 1, 8⟩ ∧ wf_loc ⟨2, 5, 2, 18⟩
    ∧ pt_lt (loc_end ⟨1, 1, 1, 8⟩) (loc_start ⟨2, 5, 2, 18⟩)
    ∧ tloc_lt ⟨1, 1, 1, 8⟩ ⟨2, 5, 2, 18⟩
    ∧ ¬ tloc_lt ⟨2, 5, 2, 18⟩ ⟨1, 1, 1, 8⟩ := by
  have h := (tloc_lt_amended ⟨1, 1, 1, 8⟩ ⟨2, 5, 2, 18⟩).2.1
    (by decide) (by decide) (by decide)
  exact ⟨by decide, by decide, by decide, h.1, h.2⟩

/-- C4 counterexample: with `A = (2,7,4,0)` and `B = (2,11,3,31)` (the
values of the repository's own "encapsulation case" test), `B` lies
entirely within `A`, yet `span_loc(A, B) = (2,7,3,31) ≠ A`. -/
theorem span_loc_encapsulation_counterexample :
    loc_inside ⟨2, 11, 3, 31⟩ ⟨2, 7, 4, 0⟩
    ∧ span_loc ⟨2, 7, 4, 0⟩ ⟨2, 11, 3, 31⟩ ≠ ⟨2, 7, 4, 0⟩ := by
  decide

/-- C4 (amended): `span_loc(X, X) = X` for every span `X`; `span_loc`
always returns the span built from the first argument's start components
and the second argument's end components, with no validation; and for `B`
lying entirely within `A`, `span_loc(A, B) = A` holds exactly when `B`
ends where `A` ends. -/
theorem span_loc_amended (X A B : text_loc) :
    span_loc X X = X ∧
    span_loc A B = ⟨A.first_lno, A.first_cno, B.last_lno, B.last_cno⟩ ∧
    (loc_inside B A → (span_loc A B = A ↔ loc_end B = loc_end A)) := by
  refine ⟨rfl, rfl, fun _ => ?_⟩
  cases A
  cases B
  simp [span_loc, loc_end, text_loc.mk.injEq, Prod.ext_iff]

/-- Witness for C4 (amended) at a concrete input: `B = (2,11,4,0)` lies
within `A = (2,7,4,0)` and shares its end, so the union equals `A`. -/
theorem span_loc_amended_witness :
    loc_inside ⟨2, 11, 4, 0⟩ ⟨2, 7, 4, 0⟩
    ∧ (span_loc ⟨2, 7, 4, 0⟩ ⟨2, 11, 4, 0⟩ = ⟨2, 7, 4, 0⟩
        ↔ loc_end ⟨2, 11, 4, 0⟩ = loc_end ⟨2, 7, 4, 0⟩) :=
  ⟨by decide,
    (span_loc_amended ⟨2, 7, 4, 0⟩ ⟨2, 7, 4, 0⟩ ⟨2, 11, 4, 0⟩).2.2 (by decide)⟩

/-- C8: `escchr` maps each of the six control characters (newline,
carriage return, form feed, vertical tab, horizontal tab, backslash) to
its two-character backslash escape and every other character to itself;
`escstr` leaves every string free of those six characters unchanged and
maps the empty string to the empty string. -/
theorem escstr_spec (s : List Char) :
    escchr '\n' = ['\\', 'n'] ∧ escchr '\r' = ['\\', 'r']
    ∧ escchr '\x0c' = ['\\', 'f'] ∧ escchr '\x0b' = ['\\', 'v']
    ∧ escchr '\t' = ['\\', 't'] ∧ escchr '\\' = ['\\', '\\']
    ∧ (∀ c : Char, c ∉ ESCAPED_CHARS → escchr c = [c])
    ∧ ((∀ c ∈ s, c ∉ ESCAPED_CHARS) → escstr s = s)
    ∧ escstr [] = [] :=
  ⟨rfl, rfl, rfl, rfl, rfl, rfl, escchr_eq_self, escstr_eq_self s, rfl⟩

/-- Witness for C8 at a concrete input: an escape-free string is left
unchanged. -/
theorem escstr_spec_witness :
    (∀ c ∈ (['b', 'u', 's'] : List Char), c ∉ ESCAPED_CHARS)
    ∧ escstr ['b', 'u', 's'] = ['b', 'u', 's'] :=
  ⟨by decide, (escstr_spec ['b', 'u', 's']).2.2.2.2.2.2.2.1 (by decide)⟩

/-- `toktext` over the whole raw span yields the raw span itself. -/
theorem toktext_full (raw : List Char) : toktext raw 0 raw.length = raw := by
  simp [toktext]

/-- `toktext` from offset `a` to offset `b` is the `[a, b)` substring,
equivalently the first `b` characters with the first `a` then removed. -/
theorem toktext_eq_take_drop (raw : List Char) (a b : Nat) :
    toktext raw a b = (raw.take b).drop a := by
  rw [toktext, List.drop_take]

/-- C2: a `parse_token_trimmed` call that passes its assertions computes
the updated location from the full raw span — the same location results
for every choice of trim counts — while the matched text is the trimmed
substring `[ts + ltrim, te − rtrim)`; and it invokes the parse function
exactly once, with the token-kind id, a fresh token carrying the trimmed
text, the file identity and the computed location. -/
theorem parse_token_trimmed_contract (st : bridge_state)
    (fpath raw : List Char) (token_id ltrim rtrim : Nat)
    (out : bridge_state × List parse_call)
    (h : parse_token_trimmed_checked false false false st fpath raw token_id
          ltrim rtrim = some out) :
    out.1.loc = mtext_loc st.loc raw ∧
    out.1.mtext = (raw.take (raw.length - rtrim)).drop ltrim ∧
    out.2 = [{ token_id := token_id,
               tok := some ⟨out.1.mtext, fpath, out.1.loc⟩ }] ∧
    (∀ ltrim2 rtrim2 out2,
      parse_token_trimmed_checked false false false st fpath raw token_id
        ltrim2 rtrim2 = some out2 →
      out2.1.loc = out.1.loc) := by
  simp only [parse_token_trimmed_checked, set_mtext_and_loc_checked,
    Bool.or_self, Bool.false_eq_true, if_false, apply_ite (Option.map _),
    Option.map_some', Option.map_none'] at h
  split at h
  · cases h
    refine ⟨?_, ?_, rfl, ?_⟩
    · rw [set_mtext_and_loc_trimmed, toktext_full]
    · rw [set_mtext_and_loc_trimmed, toktext_eq_take_drop]
    · intro ltrim2 rtrim2 out2 h2
      simp only [parse_token_trimmed_checked, set_mtext_and_loc_checked,
        Bool.or_self, Bool.false_eq_true, if_false, apply_ite (Option.map _),
        Option.map_some', Option.map_none'] at h2
      split at h2
      · cases h2
        rw [set_mtext_and_loc_trimmed, set_mtext_and_loc_trimmed]
      · exact absurd h2 (by simp)
  · exact absurd h (by simp)

/-- Witness for C2 at a concrete input: delivering the raw lexeme
`"hi"` (quotes included) with one character trimmed from each side. -/
theorem parse_token_trimmed_contract_witness :
    parse_token_trimmed_checked false false false init_bridge []
        ['"', 'h', 'i', '"'] 4 1 1
      = some (⟨['h', 'i'], ⟨1, 1, 1, 4⟩⟩,
          [{ token_id := 4, tok := some ⟨['h', 'i'], [], ⟨1, 1, 1, 4⟩⟩ }]) ∧
    (⟨['h', 'i'], ⟨1, 1, 1, 4⟩⟩ : bridge_state).loc
      = mtext_loc init_bridge.loc ['"', 'h', 'i', '"'] := by
  have h : parse_token_trimmed_checked false false false init_bridge []
      ['"', 'h', 'i', '"'] 4 1 1
      = some (⟨['h', 'i'], ⟨1, 1, 1, 4⟩⟩,
          [{ token_id := 4, tok := some ⟨['h', 'i'], [], ⟨1, 1, 1, 4⟩⟩ }]) := by
    decide
  exact ⟨h, (parse_token_trimmed_contract init_bridge [] ['"', 'h', 'i', '"']
    4 1 1 _ h).1⟩

/-- C5 counterexample: a zero-length trimmed span satisfies the claim's
precondition (non-null pointers and `ts + ltrim ≤ te − rtrim`, here
`0 + 1 ≤ 1 − 0`), yet the call fails the `> 0` assertion of
`set_mtext_and_loc_trimmed` (line 358) instead of completing. -/
theorem bridge_precondition_counterexample :
    0 + 1 ≤ (['a'] : List Char).length - 0
    ∧ parse_token_trimmed_checked false false false init_bridge [] ['a']
        7 1 0 = none := by
  decide

/-- C5 (amended): for `parse_token_trimmed` the precondition is non-null
`ts`, `te` and parser handle and a strictly positive trimmed length
(`ts + ltrim < te − rtrim`); for `skip_token` and `parse_null_token`,
which apply zero trim counts, it is non-null pointers (plus, for
`parse_null_token`, a non-null handle) and a strictly positive raw length.
Every call satisfying the respective condition completes without an
assertion failing, and every other call — a zero-length trimmed span
included — fails an assertion rather than returning a recoverable
error. -/
theorem bridge_assertion_characterization (ts_null te_null pparser_null : Bool)
    (st : bridge_state) (fpath raw : List Char) (token_id ltrim rtrim : Nat) :
    ((parse_token_trimmed_checked ts_null te_null pparser_null st fpath raw
        token_id ltrim rtrim).isSome
      ↔ (ts_null = false ∧ te_null = false ∧ pparser_null = false
          ∧ ltrim + rtrim < raw.length)) ∧
    ((skip_token_checked ts_null te_null st fpath raw ltrim rtrim).isSome
      ↔ (ts_null = false ∧ te_null = false ∧ 0 < raw.length)) ∧
    ((parse_null_token_checked ts_null te_null pparser_null st fpath raw
        token_id).isSome
      ↔ (ts_null = false ∧ te_null = false ∧ pparser_null = false
          ∧ 0 < raw.length)) := by
  simp only [parse_token_trimmed_checked, skip_token_checked,
    parse_null_token_checked, set_mtext_and_loc_checked, trimmed_len_pos]
  cases ts_null <;> cases te_null <;> cases pparser_null <;>
    simp <;> omega

/-- C6 counterexample: starting from the initial state on the raw span
`"ab"` with `ltrim = 1`, Deliver records the trimmed text `"b"` as the
matched text while Skip records the full `"ab"` — their matched-text
bookkeeping differs. -/
theorem skip_token_text_counterexample :
    (skip_token init_bridge [] ['a', 'b'] 1 0).1.mtext
      ≠ (parse_token_trimmed init_bridge [] ['a', 'b'] 3 1 0).1.mtext := by
  decide

/-- C6 (amended): for the same starting state, raw span and trim counts,
`skip_token` performs the same position bookkeeping as Deliver, but it
ignores the trim counts and records the full raw span as the matched text
(it forwards `0, 0` to `set_mtext_and_loc_trimmed`); it never invokes the
parse function and never allocates a token. -/
theorem skip_token_bookkeeping (st : bridge_state) (fpath raw : List Char)
    (token_id ltrim rtrim : Nat) :
    (skip_token st fpath raw ltrim rtrim).1.loc
      = (parse_token_trimmed st fpath raw token_id ltrim rtrim).1.loc ∧
    (skip_token st fpath raw ltrim rtrim).1.mtext = raw ∧
    (skip_token st fpath raw ltrim rtrim).2 = [] ∧
    skip_token st fpath raw ltrim rtrim = skip_token st fpath raw 0 0 := by
  refine ⟨rfl, ?_, rfl, rfl⟩
  rw [skip_token, set_mtext_and_loc_trimmed]
  simp only [Nat.sub_zero]
  exact toktext_full raw

/-- Destruction reaches each id exactly as often as it occurs in the
forest. -/
theorem forest_destroy_count (f : ast_forest) (i : Nat) :
    (forest_destroy f).count i = (forest_nodes f).count i := by
  induction f with
  | nil => rfl
  | cons j c r ihc ihr =>
      simp only [forest_destroy, forest_nodes, List.count_append,
        List.count_cons, ihc, ihr]
      omega

/-- C9: destroying the root of an AST whose nodes are pairwise-distinct
heap objects destroys each of the nodes it transitively owns exactly once
(no double-free) and destroys nothing else (no leak of an owned node, no
stray destruction), for every tree shape: each node's destruction cascades
through the children it owns. -/
theorem destroy_exactly_once (root_id : Nat) (children : ast_forest)
    (hn : (forest_nodes (.cons root_id children .nil)).Nodup) :
    (forest_destroy (.cons root_id children .nil)).count root_id = 1 ∧
    (∀ i ∈ forest_nodes (.cons root_id children .nil),
      (forest_destroy (.cons root_id children .nil)).count i = 1) ∧
    (∀ i ∉ forest_nodes (.cons root_id children .nil),
      (forest_destroy (.cons root_id children .nil)).count i = 0) := by
  have hmem : ∀ i ∈ forest_nodes (.cons root_id children .nil),
      (forest_destroy (.cons root_id children .nil)).count i = 1 := by
    intro i hi
    rw [forest_destroy_count]
    exact List.count_eq_one_of_mem hn hi
  refine ⟨hmem root_id (by simp [forest_nodes]), hmem, ?_⟩
  intro i hi
  rw [forest_destroy_count]
  exact List.count_eq_zero.mpr hi

/-- Witness for C9 at a concrete branching tree: root `0` owning `1` (which
owns `3` and `4`) and `2`. -/
theorem destroy_exactly_once_witness :
    (forest_nodes (.cons 0
        (.cons 1 (.cons 3 .nil (.cons 4 .nil .nil)) (.cons 2 .nil .nil))
        .nil)).Nodup ∧
    (forest_destroy (.cons 0
        (.cons 1 (.cons 3 .nil (.cons 4 .nil .nil)) (.cons 2 .nil .nil))
        .nil)).count 0 = 1 ∧
    (∀ i ∈ forest_nodes (.cons 0
        (.cons 1 (.cons 3 .nil (.cons 4 .nil .nil)) (.cons 2 .nil .nil))
        .nil),
      (forest_destroy (.cons 0
          (.cons 1 (.cons 3 .nil (.cons 4 .nil .nil)) (.cons 2 .nil .nil))
          .nil)).count i = 1) := by
  have h := destroy_exactly_once 0
    (.cons 1 (.cons 3 .nil (.cons 4 .nil .nil)) (.cons 2 .nil .nil))
    (by decide)
  exact ⟨by decide, h.1, h.2.1⟩

/-- The invariant holds in the empty initial state. -/
theorem ast_inv_init : ast_inv init_ast := by
  refine ⟨fun i _ => ⟨rfl, rfl⟩, fun i hi => hi, ?_, fun p => List.nodup_nil,
    fun p c hpc => absurd rfl hpc⟩
  intro p c hc
  exact absurd hc (List.not_mem_nil c)

/-- Constructing a fresh node preserves the invariant. -/
theorem ast_inv_new (s : ast_state) (i : Nat) (hs : ast_inv s)
    (hi : i ∉ s.nodes) : ast_inv (ast_new_node s i) := by
  obtain ⟨A1, A2, A3, A4, A5⟩ := hs
  refine ⟨?_, ?_, ?_, A4, ?_⟩
  · intro j hj
    simp only [ast_new_node, List.mem_cons, not_or] at hj ⊢
    obtain ⟨hji, hjs⟩ := hj
    exact ⟨by simp [hji, (A1 j hjs).1], (A1 j hjs).2⟩
  · intro j hj
    simp only [ast_new_node, List.mem_cons] at hj ⊢
    by_cases hji : j = i
    · simp [hji]
    · rcases hj with h | h
      · exact absurd h hji
      · simp only [if_neg hji]
        exact Or.inr (A2 j h)
  · intro p c hc
    simp only [ast_new_node] at hc ⊢
    obtain ⟨h1, h2, h3⟩ := A3 p c hc
    have hci : c ≠ i := fun h => hi (h ▸ h2)
    exact ⟨List.mem_cons_of_mem _ h1, List.mem_cons_of_mem _ h2,
      by simp [hci, h3]⟩
  · intro p c hpc
    simp only [ast_new_node] at hpc ⊢
    by_cases hci : c = i
    · simp [hci] at hpc
    · simp only [if_neg hci] at hpc ⊢
      exact A5 p c hpc

/-- Attaching a still-root child to a distinct live parent preserves the
invariant. -/
theorem ast_inv_add (s : ast_state) (p c : Nat) (hs : ast_inv s)
    (hp : p ∈ s.nodes) (hc : c ∈ s.nodes) (hcp : c ≠ p)
    (hroot : s.parent c = c) : ast_inv (ast_add_child s p c) := by
  obtain ⟨A1, A2, A3, A4, A5⟩ := hs
  have hcnot : ∀ q, c ∉ s.childs q := fun q hq => (A3 q c hq).2.2 hroot
  refine ⟨?_, ?_, ?_, ?_, ?_⟩
  · intro j hj
    simp only [ast_add_child] at hj ⊢
    have hjc : j ≠ c := fun h => hj (h ▸ hc)
    have hjp : j ≠ p := fun h => hj (h ▸ hp)
    simp [hjc, hjp, A1 j hj]
  · intro j hj
    simp only [ast_add_child] at hj ⊢
    by_cases hjc : j = c
    · simp [hjc, hp]
    · simp only [if_neg hjc]
      exact A2 j hj
  · intro q d hd
    simp only [ast_add_child] at hd ⊢
    by_cases hqp : q = p
    · subst hqp
      rw [if_pos rfl, if_neg (hcnot q)] at hd
      rcases List.mem_cons.mp hd with h | h
      · subst h
        exact ⟨hp, hc, by simp [Ne.symm hcp]⟩
      · obtain ⟨h1, h2, h3⟩ := A3 q d h
        have hdc : d ≠ c := fun hh => hcnot q (hh ▸ h)
        exact ⟨h1, h2, by simp [hdc, h3]⟩
    · rw [if_neg hqp] at hd
      obtain ⟨h1, h2, h3⟩ := A3 q d hd
      have hdc : d ≠ c := fun hh => hcnot q (hh ▸ hd)
      exact ⟨h1, h2, by simp [hdc, h3]⟩
  · intro q
    simp only [ast_add_child]
    by_cases hqp : q = p
    · subst hqp
      rw [if_pos rfl, if_neg (hcnot q)]
      exact List.nodup_cons.mpr ⟨hcnot q, A4 q⟩
    · rw [if_neg hqp]
      exact A4 q
  · intro q d hd
    simp only [ast_add_child] at hd ⊢
    by_cases hdc : d = c
    · subst hdc
      rw [if_pos rfl]
      by_cases hqp : q = p
      · subst hqp
        rw [if_pos rfl, if_neg (hcnot q)]
        simp
      · rw [if_neg hqp]
        simp [hcnot q, Ne.symm hqp]
    · rw [if_neg hdc] at hd ⊢
      by_cases hqp : q = p
      · subst hqp
        rw [if_pos rfl, if_neg (hcnot q)]
        rw [List.mem_cons]
        simp only [hdc, false_or]
        exact A5 q d hd
      · rw [if_neg hqp]
        exact A5 q d hd

/-- One admissible step under the attach-once discipline preserves the
invariant. -/
theorem ast_step_inv (s : ast_state) (op : ast_op) (hs : ast_inv s)
    (hop : ast_op_ok_once s op = true) : ast_inv (ast_step s op) := by
  cases op with
  | newNode i =>
      simp only [ast_op_ok_once, List.elem_eq_mem, Bool.not_eq_eq_eq_not,
        Bool.not_true, decide_eq_false_iff_not] at hop
      exact ast_inv_new s i hs hop
  | addChild p c =>
      simp only [ast_op_ok_once, List.elem_eq_mem, Bool.and_eq_true,
        decide_eq_true_eq, bne_iff_ne, ne_eq, beq_iff_eq] at hop
      exact ast_inv_add s p c hs hop.1.1.1 hop.1.1.2 hop.1.2 hop.2

/-- Every admissible operation sequence (attach-once discipline) leads to
a state satisfying the invariant. -/
theorem ast_exec_inv (ops : List ast_op) (s : ast_state) (hs : ast_inv s)
    (hops : ast_ops_ok_once s ops = true) : ast_inv (ast_exec s ops) := by
  induction ops generalizing s with
  | nil => exact hs
  | cons op ops ih =>
      rw [ast_ops_ok_once, Bool.and_eq_true] at hops
      exact ih (ast_step s op) (ast_step_inv s op hs hops.1) hops.2

/-- C7 counterexample: the sequence that constructs nodes `0`, `1`, `2`
and then attaches `2` first to `0` and then to `1` is admissible as the
claim states it (every attached child is a constructed node distinct from
its parent), yet in the final state node `2` still appears in the child
set of `0` while its parent is `1`: the parent/child relation is not
bidirectionally consistent, because `add_child` never removes the child
from its previous parent's child set. -/
theorem ast_reattach_counterexample :
    ast_ops_ok init_ast
        [.newNode 0, .newNode 1, .newNode 2, .addChild 0 2, .addChild 1 2]
      = true
    ∧ 2 ∈ (ast_exec init_ast
        [.newNode 0, .newNode 1, .newNode 2, .addChild 0 2,
          .addChild 1 2]).childs 0
    ∧ ¬ ast_is_root (ast_exec init_ast
        [.newNode 0, .newNode 1, .newNode 2, .addChild 0 2,
          .addChild 1 2]) 2
    ∧ (ast_exec init_ast
        [.newNode 0, .newNode 1, .newNode 2, .addChild 0 2,
          .addChild 1 2]).parent 2 ≠ 0 := by
  decide

/-- C7 (amended): a freshly constructed node is its own parent and
`is_root()` is true; after `P.add_child(C)` with `C` a constructed node
distinct from `P` in an invariant-satisfying state, `C.parent() = P`,
`C.is_root()` is false and `C` appears exactly once in `P.childs()`; and
under every operation sequence in which each attached child is still a
root at the moment it is attached (each node is attached at most once, the
header's intended usage), each non-root node is in the child set of
exactly one node, a node is root iff it is its own parent, and the
parent/child relation is bidirectionally consistent on non-root nodes. -/
theorem ast_framework_invariants :
    (∀ (s : ast_state) (i : Nat),
      (ast_new_node s i).parent i = i ∧ ast_is_root (ast_new_node s i) i) ∧
    (∀ (s : ast_state) (p c : Nat), ast_inv s → p ∈ s.nodes → c ∈ s.nodes →
      c ≠ p →
      (ast_add_child s p c).parent c = p
        ∧ ¬ ast_is_root (ast_add_child s p c) c
        ∧ ((ast_add_child s p c).childs p).count c = 1) ∧
    (∀ ops : List ast_op, ast_ops_ok_once init_ast ops = true →
      (∀ c, ast_is_root (ast_exec init_ast ops) c
        ↔ (ast_exec init_ast ops).parent c = c) ∧
      (∀ p c, ¬ ast_is_root (ast_exec init_ast ops) c →
        (c ∈ (ast_exec init_ast ops).childs p
          ↔ (ast_exec init_ast ops).parent c = p)) ∧
      (∀ p c, c ∈ (ast_exec init_ast ops).childs p →
        ((ast_exec init_ast ops).childs p).count c = 1) ∧
      (∀ c, ¬ ast_is_root (ast_exec init_ast ops) c →
        ∃! p, c ∈ (ast_exec init_ast ops).childs p)) := by
  refine ⟨?_, ?_, ?_⟩
  · intro s i
    constructor
    · simp [ast_new_node]
    · simp [ast_is_root, ast_new_node]
  · intro s p c hs hp hc hcp
    obtain ⟨A1, A2, A3, A4, A5⟩ := hs
    refine ⟨by simp [ast_add_child], ?_, ?_⟩
    · simp only [ast_is_root, ast_add_child, if_pos rfl]
      exact Ne.symm hcp
    · simp only [ast_add_child]
      rw [if_pos trivial]
      by_cases hmem : c ∈ s.childs p
      · rw [if_pos hmem]
        exact List.count_eq_one_of_mem (A4 p) hmem
      · rw [if_neg hmem, List.count_cons_self,
          List.count_eq_zero.mpr hmem]
  · intro ops hops
    have hinv := ast_exec_inv ops init_ast ast_inv_init hops
    obtain ⟨A1, A2, A3, A4, A5⟩ := hinv
    refine ⟨fun c => Iff.rfl, ?_, ?_, ?_⟩
    · intro p c hcr
      exact A5 p c hcr
    · intro p c hcp
      exact List.count_eq_one_of_mem (A4 p) hcp
    · intro c hcr
      refine ⟨(ast_exec init_ast ops).parent c, (A5 _ c hcr).mpr rfl, ?_⟩
      intro q hq
      exact ((A5 q c hcr).mp hq).symm

/-- Witness for C7 (amended) at a concrete sequence: construct `0` and
`1`, attach `1` under `0`; in the final state `1` is a non-root member of
exactly the child set of `0`. -/
theorem ast_framework_invariants_witness :
    ast_ops_ok_once init_ast [.newNode 0, .newNode 1, .addChild 0 1] = true
    ∧ ¬ ast_is_root (ast_exec init_ast
        [.newNode 0, .newNode 1, .addChild 0 1]) 1
    ∧ (1 ∈ (ast_exec init_ast
          [.newNode 0, .newNode 1, .addChild 0 1]).childs 0
        ↔ (ast_exec init_ast [.newNode 0, .newNode 1, .addChild 0 1]).parent 1
            = 0) := by
  have h := (ast_framework_invariants.2.2
    [.newNode 0, .newNode 1, .addChild 0 1] (by decide)).2.1 0 1 (by decide)
  exact ⟨by decide, by decide, h⟩

end Largemelon
